import Mathlib

/-!
Shallow embedding of the transaction-dispatch and confirmation-tracking layer
of `lite-rpc` (files `bench/src/benches/rpc_interface.rs` and
`bench/src/benches/confirmation_slot.rs`), together with theorems settling the
claims about it.

Modelling conventions:
* A Solana `Signature` is modelled by a natural-number identifier, `Slot` by a
  natural number, and `Duration` by a natural number of milliseconds.
* The RPC endpoint is modelled as an oracle: the batch-status call of polling
  round `q` is a function `Nat → Signature → Option TransactionStatus`, and the
  wall-clock elapsed time observed right after the `q`-th status call is a
  function `Nat → Duration`.
* `HashSet` is modelled as a duplicate-free list (insertion order fixed; the
  hash iteration order of the real set is unspecified, so the list order is
  one realizable order); `HashMap` is modelled as an association list.
* The `assert_eq!` / `assert!` / `.expect(...)` panics of the source are
  modelled as explicit abort outcomes carrying an `AbortReason`.
* The unbounded `'pooling_loop` of the source is run on explicit fuel
  (a bound on the number of loop entries); exhausting the fuel means the loop
  was still running after that many entries.
-/

namespace LiteRpcBench

abbrev Signature := Nat
abbrev Slot := Nat
abbrev Duration := Nat

/-- `solana_transaction_status::TransactionConfirmationStatus`. -/
inductive TransactionConfirmationStatus
  | processed
  | confirmed
  | finalized
deriving DecidableEq, Repr

/-- The part of `solana_transaction_status::TransactionStatus` used by the
polling loop: the slot the transaction landed in and its confirmation status. -/
structure TransactionStatus where
  slot : Slot
  confirmation_status : TransactionConfirmationStatus
deriving DecidableEq, Repr

/-- `TransactionStatus::satisfies_commitment(CommitmentConfig::confirmed())`:
true exactly when the status is `confirmed` or `finalized` (the source comments
this very line with "status is confirmed or finalized"). -/
def TransactionStatus.satisfiesConfirmed (s : TransactionStatus) : Bool :=
  s.confirmation_status != .processed

/-- `ConfirmationResponseFromRpc` of `rpc_interface.rs`.  The `sendError`
payload (an `Arc<ErrorKind>`) is irrelevant to every claim and dropped. -/
inductive ConfirmationResponseFromRpc
  | sendError
  | success (sent_slot : Slot) (confirmed_slot : Slot)
      (status : TransactionConfirmationStatus) (elapsed : Duration)
  | timeout (elapsed : Duration)
deriving DecidableEq, Repr

/-- The distinct panic sites of `send_and_confirm_bulk_transactions`. -/
inductive AbortReason
  | conservationViolated   -- assert_eq!(pending.len() + result.len(), num_sent_ok)
  | overwroteResult        -- assert!(prev_value.is_none())
  | missingResult          -- .expect("consistent map with all tx")
deriving DecidableEq, Repr

/-- Association-list lookup, modelling `HashMap::get` / the previous value
returned by `HashMap::insert`. -/
def mapLookup (k : Signature) :
    List (Signature × ConfirmationResponseFromRpc) →
    Option ConfirmationResponseFromRpc
  | [] => none
  | (a, v) :: rest => if a = k then some v else mapLookup k rest

/-- One pass of the `for (tx_sig, status_response) in zip(tx_batch, ...)` body
of the polling loop.  Arguments after the oracle: the remaining batch, the
pending set, the result map.  Returns `(restarted, pending, result)`, where
`restarted = true` models `continue 'pooling_loop` (taken at the first
signature whose status is present but below the confirmed threshold, leaving
the rest of the batch unexamined), or an abort when the `assert!` on the
previous map value fires. -/
def processBatch (send_slot : Slot) (elapsed : Duration)
    (st : Signature → Option TransactionStatus) :
    List Signature → List Signature →
    List (Signature × ConfirmationResponseFromRpc) →
    Except AbortReason
      (Bool × List Signature × List (Signature × ConfirmationResponseFromRpc))
  | [], pending, result => .ok (false, pending, result)
  | tx_sig :: rest, pending, result =>
    match st tx_sig with
    | some tx_status =>
      if tx_status.satisfiesConfirmed = false then
        -- !tx_status.satisfies_commitment(confirmed) => continue 'pooling_loop
        .ok (true, pending, result)
      else if (mapLookup tx_sig result).isSome then
        -- assert!(prev_value.is_none(), "Must not override existing value")
        .error .overwroteResult
      else
        processBatch send_slot elapsed st rest (pending.erase tx_sig)
          ((tx_sig, .success send_slot tx_status.slot
              tx_status.confirmation_status elapsed) :: result)
    | none =>
      -- None: not yet processed by the cluster - continue waiting
      processBatch send_slot elapsed st rest pending result

/-- Outcome of the `'pooling_loop`. -/
inductive PollOutcome
  | aborted (r : AbortReason)
  | finished (pending : List Signature)
      (result : List (Signature × ConfirmationResponseFromRpc))
      (iteration : Nat) (queries : Nat)
  | outOfFuel (pending : List Signature)
      (result : List (Signature × ConfirmationResponseFromRpc))
      (iteration : Nat)
deriving DecidableEq, Repr

/-- The `'pooling_loop` of `send_and_confirm_bulk_transactions`.  State:
remaining fuel, number `q` of status queries already issued, the `iteration`
counter (starts at 1; incremented only when a round runs to completion without
hitting `continue 'pooling_loop`), the pending set and the result map.  Every
loop entry first checks the conservation `assert_eq!`; then the whole pending
set is queried in one batch and processed; the loop breaks when the pending
set empties or when `iteration == 100`. -/
def pollLoop (num_sent_ok : Nat) (send_slot : Slot)
    (st : Nat → Signature → Option TransactionStatus) (el : Nat → Duration) :
    Nat → Nat → Nat → List Signature →
    List (Signature × ConfirmationResponseFromRpc) → PollOutcome
  | 0, _, iteration, pending, result => .outOfFuel pending result iteration
  | fuel + 1, q, iteration, pending, result =>
    if pending.length + result.length ≠ num_sent_ok then
      -- assert_eq!(..., "Items must move between pending+result")
      .aborted .conservationViolated
    else
      match processBatch send_slot (el q) (st q) pending pending result with
      | .error r => .aborted r
      | .ok (true, pending', result') =>
        -- continue 'pooling_loop: no break checks, no iteration increment
        pollLoop num_sent_ok send_slot st el fuel (q + 1) iteration pending' result'
      | .ok (false, pending', result') =>
        if pending'.isEmpty then .finished pending' result' iteration (q + 1)
        else if iteration = 100 then .finished pending' result' iteration (q + 1)
        else pollLoop num_sent_ok send_slot st el fuel (q + 1) (iteration + 1)
          pending' result'

/-- The post-loop sweep: every signature still pending is removed from the
pending set and receives a `Timeout` record stamped with the total elapsed
polling time.  Returns the emptied pending set and the extended result map. -/
def stampTimeouts (pending : List Signature)
    (result : List (Signature × ConfirmationResponseFromRpc))
    (total : Duration) :
    List Signature × List (Signature × ConfirmationResponseFromRpc) :=
  ([], result ++ pending.map (fun tx_sig => (tx_sig, .timeout total)))

/-- Per-transaction send outcome: `Result<Signature, ErrorKind>` with the error
payload dropped. -/
def isErr : Except Unit Signature → Bool
  | .ok _ => false
  | .error _ => true

/-- The signatures of the successfully sent transactions, in submission
order (`batch_sigs_or_fails.iter().filter(is_ok)`). -/
def okSigs : List (Except Unit Signature) → List Signature
  | [] => []
  | .ok s :: rest => s :: okSigs rest
  | .error _ :: rest => okSigs rest

/-- `HashSet::insert`: duplicate-free list insertion. -/
def hashSetInsert (s : List Signature) (x : Signature) : List Signature :=
  if x ∈ s then s else s ++ [x]

/-- The initial pending set: every successfully sent signature inserted into a
fresh `HashSet`. -/
def pendingInit (sends : List (Except Unit Signature)) : List Signature :=
  (okSigs sends).foldl hashSetInsert []

/-- `num_sent_failed`: the count of transactions whose send attempt failed. -/
def numSentFailed (sends : List (Except Unit Signature)) : Nat :=
  sends.countP isErr

/-- The key of one entry of `result_as_vec`: the accepted signature in the `Ok`
case, the transaction's own signature (`txs[i].get_signature()`) in the `Err`
case. -/
def entryKey : Signature × Except Unit Signature → Signature
  | (_, .ok tx_sig) => tx_sig
  | (tx, .error _) => tx

/-- Construction of `result_as_vec`: one output entry per element of
`batch_sigs_or_fails`, in order; `Ok` entries look their confirmation up in the
result map (`.expect("consistent map with all tx")` modelled as an abort),
`Err` entries become `SendError` records. -/
def buildResultGo (m : List (Signature × ConfirmationResponseFromRpc)) :
    List (Signature × Except Unit Signature) →
    Except AbortReason (List (Signature × ConfirmationResponseFromRpc))
  | [] => .ok []
  | (tx, s) :: rest =>
    match s with
    | .ok tx_sig =>
      match mapLookup tx_sig m with
      | some confirmation =>
        (buildResultGo m rest).map (fun t => (tx_sig, confirmation) :: t)
      | none => .error .missingResult
    | .error _ =>
      (buildResultGo m rest).map (fun t => (tx, .sendError) :: t)

/-- Failure modes of the whole bulk call. -/
inductive BulkError
  | sendFailed          -- bail!("Failed to send all transactions")
  | aborted (r : AbortReason)
  | outOfFuel           -- the polling loop was still running after `fuel` entries
deriving DecidableEq, Repr

/-- `send_and_confirm_bulk_transactions`, from the point where the per-
transaction send outcomes `batch_sigs_or_fails` are known.  `txs` is the list
of the transactions' own signatures (`txs[i].get_signature()`), aligned with
`sends`; `send_slot` is the slot delivered by `poll_next_slot_start` (modelled
separately below).  If any send failed the call bails out before any polling;
otherwise the polling loop runs, pending leftovers are stamped as timeouts
with the total elapsed polling time `el qend`, and the per-transaction result
vector is built. -/
def send_and_confirm_bulk_transactions (txs : List Signature)
    (sends : List (Except Unit Signature)) (send_slot : Slot)
    (st : Nat → Signature → Option TransactionStatus) (el : Nat → Duration)
    (fuel : Nat) :
    Except BulkError (List (Signature × ConfirmationResponseFromRpc)) :=
  if 0 < numSentFailed sends then .error .sendFailed
  else
    match pollLoop (okSigs sends).length send_slot st el fuel 0 1
        (pendingInit sends) [] with
    | .aborted r => .error (.aborted r)
    | .outOfFuel _ _ _ => .error .outOfFuel
    | .finished pending result _ qend =>
      match buildResultGo ((stampTimeouts pending result (el qend)).2)
          (txs.zip sends) with
      | .error r => .error (.aborted r)
      | .ok v => .ok v

/-- The body of `poll_next_slot_start`: `fuel` counts the remaining allowed
observations (500 in total, after which `bail!("Timeout waiting for slot
change")`, modelled as `none`); `i` is the source's iteration counter (for the
observation oracle); `last` is `last_slot`. -/
def pollNextSlotGo (obs : Nat → Slot) : Nat → Nat → Option Slot → Option Slot
  | 0, _, _ => none
  | fuel + 1, i, last =>
    let slot := obs i
    match last with
    | some l =>
      if l + 1 = slot then some slot
      else pollNextSlotGo obs fuel (i + 1) (some slot)
    | none => pollNextSlotGo obs fuel (i + 1) (some slot)

/-- `poll_next_slot_start`: observations are `obs 1, obs 2, ...`; the first
observation equal to its predecessor plus one is returned; after 500
observations without a clean step the call times out. -/
def poll_next_slot_start (obs : Nat → Slot) : Option Slot :=
  pollNextSlotGo obs 500 1 none

/-- The latency compensator of `confirmation_slot`: the `f64` arithmetic of
the source (subtract, absolute value, halve, compare) is modelled exactly over
`ℚ`; `time_a`/`time_b` are the two measured round-trip times. -/
def confirmation_delays (time_a time_b : ℚ) : ℚ × ℚ :=
  let half_round_trip := |time_a - time_b| / 2
  if time_a > time_b then (0, half_round_trip) else (half_round_trip, 0)

/-- `ConfirmationSlotResult` of `confirmation_slot.rs`. -/
structure ConfirmationSlotResult where
  signature : Signature
  slot_sent : Slot
  slot_landed : Slot
  send_duration : Duration
deriving DecidableEq, Repr

/-- `ConfirmationSlotResult::default()`. -/
def ConfirmationSlotResult.defaultValue : ConfirmationSlotResult :=
  ⟨0, 0, 0, 0⟩

/-- Outcome of the polling loop inside `send_transaction`. -/
inductive SendTxOutcome
  | timedOut (elapsed : Duration)        -- return Ok(default) taken
  | confirmedBreak (elapsed : Duration)  -- loop broken by confirmed.value
deriving DecidableEq, Repr

/-- The polling loop of `send_transaction`: each iteration is a pair
`(elapsed, confirmed)` - the wall-clock elapsed time observed at the top of
the iteration and the `confirmed.value` the endpoint would answer.  The
deadline check `start_time.elapsed() >= Duration::from_millis(timeout_ms)`
runs before the status call; `none` means the trace ran out while the loop was
still spinning. -/
def send_transaction_loop (timeout_ms : Nat) :
    List (Nat × Bool) → Option SendTxOutcome
  | [] => none
  | (e, c) :: rest =>
    if timeout_ms ≤ e then some (.timedOut e)
    else if c then some (.confirmedBreak e)
    else send_transaction_loop timeout_ms rest

/-- `send_transaction` from the point where the transaction was accepted:
returns the elapsed time at the loop's exit point together with the function's
result.  On timeout the default ("no result") record is returned as a success;
on confirmation the full transaction record is fetched (`fetched`: the landed
slot, or a fetch error propagated by `?`). -/
def send_transaction (timeout_ms : Nat) (checks : List (Nat × Bool))
    (sig : Signature) (slot_sent : Slot) (fetched : Except Unit Slot) :
    Option (Nat × Except Unit ConfirmationSlotResult) :=
  match send_transaction_loop timeout_ms checks with
  | none => none
  | some (.timedOut e) => some (e, .ok ConfirmationSlotResult.defaultValue)
  | some (.confirmedBreak e) =>
    match fetched with
    | .error _ => some (e, .error ())
    | .ok slot_landed => some (e, .ok ⟨sig, slot_sent, slot_landed, e⟩)

/-- A returned status is "present but below the confirmed threshold" exactly
when it is `Some` and fails `satisfies_commitment(confirmed)` - the condition
that triggers `continue 'pooling_loop`. -/
def belowThreshold : Option TransactionStatus → Bool
  | some t => !t.satisfiesConfirmed
  | none => false

/-- The spec's slot-observation test vector `[5,5,6,7,7,8]` (observations are
indexed from 1; past the vector the slot stays at 8). -/
def obsExample : Nat → Slot :=
  fun i => [5, 5, 6, 7, 7, 8].getD (i - 1) 8

/-- A status oracle answering `processed` (present but below the confirmed
threshold) for signature 1 and `confirmed` for every other signature. -/
def stMixedExample : Signature → Option TransactionStatus :=
  fun s => if s = 1 then some ⟨9, .processed⟩ else some ⟨9, .confirmed⟩

/-- A status oracle forever answering `processed` for every signature in every
round. -/
def stForeverProcessed : Nat → Signature → Option TransactionStatus :=
  fun _ _ => some ⟨9, .processed⟩

/-! ### Helper lemmas about the association map -/

lemma mapLookup_eq_none_of_not_mem {k : Signature}
    {m : List (Signature × ConfirmationResponseFromRpc)}
    (h : k ∉ m.map Prod.fst) : mapLookup k m = none := by
  induction m with
  | nil => rfl
  | cons a rest ih =>
    obtain ⟨a1, a2⟩ := a
    simp only [List.map_cons, List.mem_cons] at h
    push_neg at h
    have hne : ¬(a1 = k) := fun he => h.1 he.symm
    simp only [mapLookup, if_neg hne]
    exact ih h.2

lemma mem_of_mapLookup_eq_some {k : Signature} {v : ConfirmationResponseFromRpc}
    {m : List (Signature × ConfirmationResponseFromRpc)}
    (h : mapLookup k m = some v) : (k, v) ∈ m := by
  induction m with
  | nil => simp [mapLookup] at h
  | cons a rest ih =>
    obtain ⟨a1, a2⟩ := a
    by_cases he : a1 = k
    · subst he
      simp only [mapLookup, if_true] at h
      simp only [Option.some.injEq] at h
      subst h
      exact List.mem_cons_self _ _
    · simp only [mapLookup, if_neg he] at h
      exact List.mem_cons_of_mem _ (ih h)

/-! ### Soundness of one round of the polling loop -/

/-- Processing a round's batch never panics when the batch is duplicate-free,
drawn from the pending set, and the pending set is disjoint from the result
map's keys; the multiset of tracked signatures (pending plus result keys) is
preserved, and every new result record is a `success` record of this round. -/
lemma processBatch_sound (send_slot : Slot) (e : Duration)
    (st : Signature → Option TransactionStatus) :
    ∀ (batch pending : List Signature)
      (result : List (Signature × ConfirmationResponseFromRpc)),
      batch.Nodup → (∀ s ∈ batch, s ∈ pending) →
      (pending ++ result.map Prod.fst).Nodup →
      ∃ flag pending' result',
        processBatch send_slot e st batch pending result
          = .ok (flag, pending', result') ∧
        (pending' ++ result'.map Prod.fst).Perm (pending ++ result.map Prod.fst) ∧
        (∀ a ∈ result', a ∈ result ∨
          ∃ sl cs, a.2 = ConfirmationResponseFromRpc.success send_slot sl cs e) := by
  intro batch
  induction batch with
  | nil =>
    intro pending result _ _ _
    exact ⟨false, pending, result, rfl, List.Perm.refl _, fun a ha => Or.inl ha⟩
  | cons x rest ih =>
    intro pending result hnd hsub hcat
    rcases hst : st x with _ | t
    · obtain ⟨f, p', r', heq, hperm, hvals⟩ :=
        ih pending result (List.nodup_cons.mp hnd).2
          (fun s hs => hsub s (List.mem_cons_of_mem _ hs)) hcat
      exact ⟨f, p', r', by simpa [processBatch, hst] using heq, hperm, hvals⟩
    · rcases hsat : t.satisfiesConfirmed with _ | _
    -- status present but below the confirmed threshold: continue 'pooling_loop
      · exact ⟨true, pending, result, by simp [processBatch, hst, hsat],
          List.Perm.refl _, fun a ha => Or.inl ha⟩
      · have hx : x ∈ pending := hsub x (List.mem_cons_self x rest)
        have hdisj : List.Disjoint pending (result.map Prod.fst) :=
          List.disjoint_of_nodup_append hcat
        have hxk : x ∉ result.map Prod.fst := fun hk => hdisj hx hk
        have hlk : mapLookup x result = none := mapLookup_eq_none_of_not_mem hxk
        have hbig : (pending ++ result.map Prod.fst).Perm
            (pending.erase x ++ x :: result.map Prod.fst) := by
          have h1 : pending.Perm (x :: pending.erase x) := List.perm_cons_erase hx
          have h2 := h1.append_right (result.map Prod.fst)
          have h3 : (x :: pending.erase x) ++ result.map Prod.fst
              = x :: (pending.erase x ++ result.map Prod.fst) := rfl
          rw [h3] at h2
          exact h2.trans List.perm_middle.symm
        have hcat2 : (pending.erase x ++ x :: result.map Prod.fst).Nodup :=
          hbig.nodup hcat
        have hsub2 : ∀ s ∈ rest, s ∈ pending.erase x := by
          intro s hs
          have hne : s ≠ x := by
            rintro rfl
            exact (List.nodup_cons.mp hnd).1 hs
          exact (List.mem_erase_of_ne hne).mpr
            (hsub s (List.mem_cons_of_mem _ hs))
        obtain ⟨f, p', r', heq, hperm, hvals⟩ :=
          ih (pending.erase x)
            ((x, .success send_slot t.slot t.confirmation_status e) :: result)
            (List.nodup_cons.mp hnd).2 hsub2 (by simpa using hcat2)
        refine ⟨f, p', r', ?_, ?_, ?_⟩
        · simpa [processBatch, hst, hsat, hlk] using heq
        · have hperm2 := hperm
          simp only [List.map_cons] at hperm2
          exact hperm2.trans hbig.symm
        · intro a ha
          rcases hvals a ha with h | ⟨sl, cs, h⟩
          · rcases List.mem_cons.mp h with h | h
            · exact Or.inr ⟨t.slot, t.confirmation_status, by rw [h]⟩
            · exact Or.inl h
          · exact Or.inr ⟨sl, cs, h⟩

/-! ### Soundness of the whole polling loop -/

/-- Invariant preservation along the `'pooling_loop`: started from a state
whose pending set and result keys together are a permutation of the
duplicate-free accepted-signature list `sigs0` (so in particular every round
boundary satisfies the conservation equation), the loop never panics, and any
final state again partitions `sigs0`, with an iteration counter at most 100
and no `SendError` record ever stored in the result map. -/
lemma pollLoop_sound (send_slot : Slot)
    (st : Nat → Signature → Option TransactionStatus) (el : Nat → Duration)
    (sigs0 : List Signature) (hs0 : sigs0.Nodup) :
    ∀ (fuel q it : Nat) (pending : List Signature)
      (result : List (Signature × ConfirmationResponseFromRpc)),
      (pending ++ result.map Prod.fst).Perm sigs0 →
      (∀ a ∈ result, a.2 ≠ ConfirmationResponseFromRpc.sendError) →
      it ≤ 100 →
      (∀ r, pollLoop sigs0.length send_slot st el fuel q it pending result
          ≠ .aborted r) ∧
      (∀ p r it' q',
        pollLoop sigs0.length send_slot st el fuel q it pending result
            = .finished p r it' q' →
        (p ++ r.map Prod.fst).Perm sigs0 ∧ it' ≤ 100 ∧
        ∀ a ∈ r, a.2 ≠ ConfirmationResponseFromRpc.sendError) := by
  intro fuel
  induction fuel with
  | zero =>
    intro q it pending result _ _ _
    constructor
    · intro r h
      simp [pollLoop] at h
    · intro p r it' q' h
      simp [pollLoop] at h
  | succ fuel ih =>
    intro q it pending result hperm hvals hit
    have hlen : pending.length + result.length = sigs0.length := by
      have h := hperm.length_eq
      simpa using h
    have hcatnd : (pending ++ result.map Prod.fst).Nodup := hperm.symm.nodup hs0
    have hpnd : pending.Nodup := hcatnd.of_append_left
    obtain ⟨flag, p', r', heq, hperm', hvals'⟩ :=
      processBatch_sound send_slot (el q) (st q) pending pending result hpnd
        (fun s hs => hs) hcatnd
    have hperm'' : (p' ++ r'.map Prod.fst).Perm sigs0 := hperm'.trans hperm
    have hvals'' : ∀ a ∈ r', a.2 ≠ ConfirmationResponseFromRpc.sendError := by
      intro a ha
      rcases hvals' a ha with h | ⟨sl, cs, h⟩
      · exact hvals a h
      · rw [h]
        simp
    cases flag with
    | true =>
      have hred : pollLoop sigs0.length send_slot st el (fuel + 1) q it pending
          result = pollLoop sigs0.length send_slot st el fuel (q + 1) it p' r' := by
        simp [pollLoop, hlen, heq]
      rw [hred]
      exact ih (q + 1) it p' r' hperm'' hvals'' hit
    | false =>
      by_cases hemp : p'.isEmpty
      · have hred : pollLoop sigs0.length send_slot st el (fuel + 1) q it pending
            result = .finished p' r' it (q + 1) := by
          simp [pollLoop, hlen, heq, hemp]
        rw [hred]
        constructor
        · intro r h
          exact absurd h (by simp)
        · intro p r it' q' h
          simp only [PollOutcome.finished.injEq] at h
          obtain ⟨h1, h2, h3, _⟩ := h
          subst h1; subst h2; subst h3
          exact ⟨hperm'', hit, hvals''⟩
      · by_cases h100 : it = 100
        · have hred : pollLoop sigs0.length send_slot st el (fuel + 1) q it
              pending result = .finished p' r' it (q + 1) := by
            simp [pollLoop, hlen, heq, hemp, h100]
          rw [hred]
          constructor
          · intro r h
            exact absurd h (by simp)
          · intro p r it' q' h
            simp only [PollOutcome.finished.injEq] at h
            obtain ⟨h1, h2, h3, _⟩ := h
            subst h1; subst h2; subst h3
            exact ⟨hperm'', hit, hvals''⟩
        · have hred : pollLoop sigs0.length send_slot st el (fuel + 1) q it
              pending result
              = pollLoop sigs0.length send_slot st el fuel (q + 1) (it + 1) p' r' := by
            simp [pollLoop, hlen, heq, hemp, h100]
          rw [hred]
          exact ih (q + 1) (it + 1) p' r' hperm'' hvals''
            (Nat.succ_le_of_lt (Nat.lt_of_le_of_ne hit h100))

/-! ### The initial pending set -/

lemma foldl_hashSetInsert_of_nodup :
    ∀ (l acc : List Signature), (acc ++ l).Nodup →
      l.foldl hashSetInsert acc = acc ++ l := by
  intro l
  induction l with
  | nil =>
    intro acc _
    simp
  | cons x rest ih =>
    intro acc h
    have hx : x ∉ acc := by
      intro hmem
      exact (List.disjoint_of_nodup_append h) hmem (List.mem_cons_self x rest)
    have hins : hashSetInsert acc x = acc ++ [x] := by
      simp [hashSetInsert, hx]
    rw [List.foldl_cons, hins, ih (acc ++ [x]) (by simpa using h)]
    simp

/-- When the accepted signatures are pairwise distinct, the initial pending
set is exactly the accepted-signature list, in order. -/
lemma pendingInit_eq_of_nodup (sends : List (Except Unit Signature))
    (h : (okSigs sends).Nodup) : pendingInit sends = okSigs sends := by
  have hfold := foldl_hashSetInsert_of_nodup (okSigs sends) [] (by simpa using h)
  simpa [pendingInit] using hfold

/-! ### Claim theorems -/

/-- C1: in batch confirmation polling, at every round boundary the size of the
pending-signature set plus the size of the resolved-result map equals the
count of successfully-sent signatures, and any deviation aborts the program
rather than being suppressed.  First conjunct: starting from the accepted
signatures (pairwise distinct, as content-derived signatures are), the
conservation `assert_eq!` never fires, whatever the status oracle answers and
however many rounds run - so the equation holds at every round boundary
reached.  Second conjunct: any state violating the equation is aborted at the
very next round boundary. -/
theorem C1_conservation_invariant (sends : List (Except Unit Signature))
    (send_slot : Slot) (st : Nat → Signature → Option TransactionStatus)
    (el : Nat → Duration) (hnd : (okSigs sends).Nodup) :
    (∀ fuel,
      pollLoop (okSigs sends).length send_slot st el fuel 0 1
        (pendingInit sends) [] ≠ .aborted .conservationViolated) ∧
    (∀ fuel q it pending result,
      pending.length + result.length ≠ (okSigs sends).length →
      pollLoop (okSigs sends).length send_slot st el (fuel + 1) q it pending
        result = .aborted .conservationViolated) := by
  constructor
  · intro fuel
    have hp : ((pendingInit sends)
        ++ (([] : List (Signature × ConfirmationResponseFromRpc)).map Prod.fst)).Perm
        (okSigs sends) := by
      rw [pendingInit_eq_of_nodup sends hnd]
      simp
    exact (pollLoop_sound send_slot st el (okSigs sends) hnd fuel 0 1
      (pendingInit sends) [] hp (by simp) (by norm_num)).1 _
  · intro fuel q it pending result hne
    simp [pollLoop, hne]

/-- Witness for C1 at a concrete batch of two accepted signatures. -/
theorem C1_conservation_invariant_witness :
    (okSigs [Except.ok 1, Except.ok 2]).Nodup ∧
    ((∀ fuel,
      pollLoop (okSigs [Except.ok 1, Except.ok 2]).length 4
        (fun _ _ => none) (fun _ => 0) fuel 0 1
        (pendingInit [Except.ok 1, Except.ok 2]) []
        ≠ .aborted .conservationViolated) ∧
    (∀ fuel q it pending result,
      pending.length + result.length ≠ (okSigs [Except.ok 1, Except.ok 2]).length →
      pollLoop (okSigs [Except.ok 1, Except.ok 2]).length 4
        (fun _ _ => none) (fun _ => 0) (fuel + 1) q it pending result
        = .aborted .conservationViolated)) :=
  ⟨by decide, C1_conservation_invariant [Except.ok 1, Except.ok 2] 4
    (fun _ _ => none) (fun _ => 0) (by decide)⟩

/-- C9: during batch confirmation polling no signature is ever resolved
twice.  First conjunct: from distinct accepted signatures the
`assert!(prev_value.is_none())` never fires.  Second conjunct: whenever the
loop breaks, the pending set together with the resolved keys is a
duplicate-free permutation of the accepted signatures - every signature is
tracked exactly once, so a removal from pending happens at most once and
coincides with the single insertion of its record.  Third conjunct: an
attempted duplicate resolution (confirmed status for a signature whose record
already exists) aborts via the assertion. -/
theorem C9_monotonic_resolution (sends : List (Except Unit Signature))
    (send_slot : Slot) (st : Nat → Signature → Option TransactionStatus)
    (el : Nat → Duration) (hnd : (okSigs sends).Nodup) :
    (∀ fuel,
      pollLoop (okSigs sends).length send_slot st el fuel 0 1
        (pendingInit sends) [] ≠ .aborted .overwroteResult) ∧
    (∀ fuel p r it q,
      pollLoop (okSigs sends).length send_slot st el fuel 0 1
        (pendingInit sends) [] = .finished p r it q →
      (p ++ r.map Prod.fst).Perm (okSigs sends) ∧ (p ++ r.map Prod.fst).Nodup) ∧
    (∀ (slot2 : Slot) (e2 : Duration) (st2 : Signature → Option TransactionStatus)
        (s : Signature) (stt : TransactionStatus) (rest pending : List Signature)
        (result : List (Signature × ConfirmationResponseFromRpc)),
      st2 s = some stt → stt.satisfiesConfirmed = true →
      (mapLookup s result).isSome = true →
      processBatch slot2 e2 st2 (s :: rest) pending result
        = .error .overwroteResult) := by
  have hp : ((pendingInit sends)
      ++ (([] : List (Signature × ConfirmationResponseFromRpc)).map Prod.fst)).Perm
      (okSigs sends) := by
    rw [pendingInit_eq_of_nodup sends hnd]
    simp
  refine ⟨?_, ?_, ?_⟩
  · intro fuel
    exact (pollLoop_sound send_slot st el (okSigs sends) hnd fuel 0 1
      (pendingInit sends) [] hp (by simp) (by norm_num)).1 _
  · intro fuel p r it q h
    have hperm := ((pollLoop_sound send_slot st el (okSigs sends) hnd fuel 0 1
      (pendingInit sends) [] hp (by simp) (by norm_num)).2 p r it q h).1
    exact ⟨hperm, hperm.symm.nodup hnd⟩
  · intro slot2 e2 st2 s stt rest pending result h1 h2 h3
    simp [processBatch, h1, h2, h3]

/-- Witness for C9 at a concrete batch and a concrete duplicate insertion. -/
theorem C9_monotonic_resolution_witness :
    (okSigs [Except.ok 5, Except.ok 6]).Nodup ∧
    ((∀ fuel,
      pollLoop (okSigs [Except.ok 5, Except.ok 6]).length 3
        (fun _ _ => some ⟨8, .confirmed⟩) (fun _ => 1) fuel 0 1
        (pendingInit [Except.ok 5, Except.ok 6]) []
        ≠ .aborted .overwroteResult) ∧
    (∀ fuel p r it q,
      pollLoop (okSigs [Except.ok 5, Except.ok 6]).length 3
        (fun _ _ => some ⟨8, .confirmed⟩) (fun _ => 1) fuel 0 1
        (pendingInit [Except.ok 5, Except.ok 6]) [] = .finished p r it q →
      (p ++ r.map Prod.fst).Perm (okSigs [Except.ok 5, Except.ok 6]) ∧
      (p ++ r.map Prod.fst).Nodup) ∧
    (∀ (slot2 : Slot) (e2 : Duration) (st2 : Signature → Option TransactionStatus)
        (s : Signature) (stt : TransactionStatus) (rest pending : List Signature)
        (result : List (Signature × ConfirmationResponseFromRpc)),
      st2 s = some stt → stt.satisfiesConfirmed = true →
      (mapLookup s result).isSome = true →
      processBatch slot2 e2 st2 (s :: rest) pending result
        = .error .overwroteResult)) :=
  ⟨by decide, C9_monotonic_resolution [Except.ok 5, Except.ok 6] 3
    (fun _ _ => some ⟨8, .confirmed⟩) (fun _ => 1) (by decide)⟩

/-- C4: if any transaction in the batch fails to send, the call returns an
overall failure (`bail!("Failed to send all transactions")`) - and it does so
identically for every status oracle, elapsed clock and fuel, i.e. before any
confirmation polling can influence the outcome; no retry of the failed send
happens in this layer. -/
theorem C4_fail_fast_on_send_failure (txs : List Signature)
    (sends : List (Except Unit Signature)) (send_slot : Slot)
    (st : Nat → Signature → Option TransactionStatus) (el : Nat → Duration)
    (fuel : Nat) (h : Except.error () ∈ sends) :
    send_and_confirm_bulk_transactions txs sends send_slot st el fuel
      = .error .sendFailed := by
  have hpos : 0 < numSentFailed sends := by
    refine List.countP_pos_iff.mpr ⟨Except.error (), h, ?_⟩
    rfl
  simp [send_and_confirm_bulk_transactions, hpos]

/-- Witness for C4: a batch of five transactions, four accepted and one
rejected at send time, fails as a whole. -/
theorem C4_fail_fast_on_send_failure_witness :
    Except.error () ∈ [Except.ok 1, Except.ok 2, Except.error (), Except.ok 4,
      Except.ok 5] ∧
    send_and_confirm_bulk_transactions [1, 2, 3, 4, 5]
      [Except.ok 1, Except.ok 2, Except.error (), Except.ok 4, Except.ok 5] 4
      (fun _ _ => some ⟨8, .confirmed⟩) (fun _ => 1) 50
      = .error .sendFailed :=
  ⟨by simp, C4_fail_fast_on_send_failure [1, 2, 3, 4, 5]
    [Except.ok 1, Except.ok 2, Except.error (), Except.ok 4, Except.ok 5] 4
    (fun _ _ => some ⟨8, .confirmed⟩) (fun _ => 1) 50 (by simp)⟩

/-- Soundness of the slot-aligner loop body: started at observation index `i`
with `last_slot = obs (i-1)`, a returned slot is the first observation from
index `i` on that equals its immediate predecessor plus one. -/
lemma pollNextSlotGo_sound (obs : Nat → Slot) :
    ∀ (fuel i : Nat) (v : Slot), 1 ≤ i →
      pollNextSlotGo obs fuel i (some (obs (i - 1))) = some v →
      ∃ k, i ≤ k ∧ k < i + fuel ∧ obs k = obs (k - 1) + 1 ∧ v = obs k ∧
        ∀ j, i ≤ j → j < k → obs j ≠ obs (j - 1) + 1 := by
  intro fuel
  induction fuel with
  | zero =>
    intro i v _ h
    simp [pollNextSlotGo] at h
  | succ fuel ih =>
    intro i v hi h
    simp only [pollNextSlotGo] at h
    by_cases hstep : obs (i - 1) + 1 = obs i
    · rw [if_pos hstep] at h
      simp only [Option.some.injEq] at h
      refine ⟨i, le_refl i, by omega, hstep.symm, h.symm, ?_⟩
      intro j hj1 hj2
      omega
    · rw [if_neg hstep] at h
      have hrec : pollNextSlotGo obs fuel (i + 1) (some (obs (i + 1 - 1)))
          = some v := by
        simpa using h
      obtain ⟨k, hk1, hk2, hk3, hk4, hk5⟩ := ih (i + 1) v (by omega) hrec
      refine ⟨k, by omega, by omega, hk3, hk4, ?_⟩
      intro j hj1 hj2
      by_cases hji : j = i
      · subst hji
        intro hc
        exact hstep hc.symm
      · exact hk5 j (by omega) hj2

/-- C6: whenever `poll_next_slot_start` returns a slot, it is the first
observed value equal to the immediately prior observation plus one: for some
observation index `k` within the 500-observation budget, `obs k = obs (k-1) +
1` and the returned value is `obs k`, while no earlier pair of consecutive
observations (from the second observation on) was a clean +1 step -
observations equal to, or more than one greater than, their predecessor keep
the polling going.  (Instantiated at the spec's vector `[5,5,6,7,7,8]`, which
returns 6, in the witness.) -/
theorem C6_first_clean_step (obs : Nat → Slot) (v : Slot)
    (h : poll_next_slot_start obs = some v) :
    ∃ k, 2 ≤ k ∧ k ≤ 500 ∧ obs k = obs (k - 1) + 1 ∧ v = obs k ∧
      ∀ j, 2 ≤ j → j < k → obs j ≠ obs (j - 1) + 1 := by
  have hh : pollNextSlotGo obs (499 + 1) 1 none = some v := h
  rw [pollNextSlotGo] at hh
  have h2 : pollNextSlotGo obs 499 2 (some (obs (2 - 1))) = some v := by
    simpa using hh
  obtain ⟨k, hk1, hk2, hk3, hk4, hk5⟩ := pollNextSlotGo_sound obs 499 2 v
    (by omega) h2
  exact ⟨k, hk1, by omega, hk3, hk4, hk5⟩

/-- Witness for C6 at the spec's observation vector `[5,5,6,7,7,8]`: the
aligner returns 6 (the first clean +1 step), not 8. -/
theorem C6_first_clean_step_witness :
    poll_next_slot_start obsExample = some 6 ∧
    ∃ k, 2 ≤ k ∧ k ≤ 500 ∧ obsExample k = obsExample (k - 1) + 1 ∧
      (6 : Slot) = obsExample k ∧
      ∀ j, 2 ≤ j → j < k → obsExample j ≠ obsExample (j - 1) + 1 :=
  ⟨by decide, C6_first_clean_step obsExample 6 (by decide)⟩

/-- C7: for every pair of measured round-trip times the latency compensator
assigns |a−b|/2 to the endpoint with the smaller round-trip time and zero to
the other, so at least one of the two delays is always zero; in particular for
A=40ms, B=10ms the delays are (0, 15) - instantiated in the witness. -/
theorem C7_latency_compensation (time_a time_b : ℚ) :
    ((confirmation_delays time_a time_b).1 = 0 ∨
      (confirmation_delays time_a time_b).2 = 0) ∧
    (time_b < time_a →
      confirmation_delays time_a time_b = (0, (time_a - time_b) / 2)) ∧
    (time_a < time_b →
      confirmation_delays time_a time_b = ((time_b - time_a) / 2, 0)) ∧
    (time_a = time_b → confirmation_delays time_a time_b = (0, 0)) := by
  refine ⟨?_, ?_, ?_, ?_⟩
  · by_cases h : time_a > time_b
    · left
      simp [confirmation_delays, h]
    · right
      simp [confirmation_delays, h]
  · intro h
    have habs : |time_a - time_b| = time_a - time_b := abs_of_pos (by linarith)
    simp [confirmation_delays, h, habs]
  · intro h
    have hnot : ¬(time_a > time_b) := not_lt.mpr (le_of_lt h)
    have habs : |time_a - time_b| = time_b - time_a := by
      rw [abs_sub_comm]
      exact abs_of_pos (by linarith)
    simp [confirmation_delays, hnot, habs]
  · intro h
    subst h
    simp [confirmation_delays]

/-- Witness for C7 at the spec's measurements A=40ms, B=10ms: delays (0, 15). -/
theorem C7_latency_compensation_witness :
    (10 : ℚ) < 40 ∧ confirmation_delays 40 10 = (0, 15) := by
  refine ⟨by norm_num, ?_⟩
  have h := (C7_latency_compensation 40 10).2.1 (by norm_num)
  rw [h]
  norm_num

/-- The single-signature polling loop, fed only unconfirmed answers, can exit
only through the deadline check, at an elapsed time at least the timeout. -/
lemma send_transaction_loop_unconfirmed (timeout_ms : Nat) :
    ∀ (checks : List (Nat × Bool)), (∀ p ∈ checks, p.2 = false) →
      ∀ o, send_transaction_loop timeout_ms checks = some o →
        ∃ e, o = .timedOut e ∧ timeout_ms ≤ e := by
  intro checks
  induction checks with
  | nil =>
    intro _ o h
    simp [send_transaction_loop] at h
  | cons p rest ih =>
    intro hall o h
    obtain ⟨e, c⟩ := p
    have hc : c = false := hall (e, c) (List.mem_cons_self _ _)
    subst hc
    simp only [send_transaction_loop] at h
    by_cases hto : timeout_ms ≤ e
    · rw [if_pos hto] at h
      simp only [Option.some.injEq] at h
      exact ⟨e, h.symm, hto⟩
    · rw [if_neg hto] at h
      simp only [if_neg (by simp : ¬(false = true))] at h
      exact ih (fun p hp => hall p (List.mem_cons_of_mem _ hp)) o h

/-- C8: in single-signature mode, if the endpoint never reports the signature
confirmed, `send_transaction` returns the default "no result" record as a
success value (`Ok`, not an error), and the elapsed wall-clock time at the
return point is at least the configured deadline in milliseconds - never
less. -/
theorem C8_timeout_sentinel (timeout_ms : Nat) (checks : List (Nat × Bool))
    (sig : Signature) (slot_sent : Slot) (fetched : Except Unit Slot)
    (t : Nat) (r : Except Unit ConfirmationSlotResult)
    (hnc : ∀ p ∈ checks, p.2 = false)
    (h : send_transaction timeout_ms checks sig slot_sent fetched = some (t, r)) :
    r = .ok ConfirmationSlotResult.defaultValue ∧ timeout_ms ≤ t := by
  unfold send_transaction at h
  cases hl : send_transaction_loop timeout_ms checks with
  | none =>
    rw [hl] at h
    simp at h
  | some o =>
    obtain ⟨e, ho, hto⟩ := send_transaction_loop_unconfirmed timeout_ms checks
      hnc o hl
    subst ho
    rw [hl] at h
    simp only [Option.some.injEq, Prod.mk.injEq] at h
    obtain ⟨h1, h2⟩ := h
    subst h1
    exact ⟨h2.symm, hto⟩

/-- Witness for C8: deadline 500ms, endpoint never confirming, checks at
100ms and 600ms - the sentinel is returned at 600ms ≥ 500ms. -/
theorem C8_timeout_sentinel_witness :
    send_transaction 500 [(100, false), (600, false)] 3 4 (.ok 9)
      = some (600, .ok ConfirmationSlotResult.defaultValue) ∧
    (Except.ok ConfirmationSlotResult.defaultValue
        = Except.ok (ε := Unit) ConfirmationSlotResult.defaultValue ∧
      500 ≤ 600) :=
  ⟨by rfl, C8_timeout_sentinel 500 [(100, false), (600, false)] 3 4 (.ok 9) 600
    (.ok ConfirmationSlotResult.defaultValue) (by decide) (by rfl)⟩

/-- A signature not in the round's batch is never erased from the pending set
by that round's processing. -/
lemma processBatch_pending_mem (send_slot : Slot) (e : Duration)
    (st : Signature → Option TransactionStatus) :
    ∀ (batch pending : List Signature)
      (result : List (Signature × ConfirmationResponseFromRpc))
      (flag : Bool) (pending' : List Signature)
      (result' : List (Signature × ConfirmationResponseFromRpc)),
      processBatch send_slot e st batch pending result
        = .ok (flag, pending', result') →
      ∀ s, s ∈ pending → s ∉ batch → s ∈ pending' := by
  intro batch
  induction batch with
  | nil =>
    intro pending result flag pending' result' h s hs _
    simp only [processBatch, Except.ok.injEq, Prod.mk.injEq] at h
    rw [← h.2.1]
    exact hs
  | cons x rest ih =>
    intro pending result flag pending' result' h s hs hnb
    have hsx : s ≠ x := fun he => hnb (he ▸ List.mem_cons_self x rest)
    have hsr : s ∉ rest := fun hr => hnb (List.mem_cons_of_mem _ hr)
    rcases hst : st x with _ | t
    · rw [show processBatch send_slot e st (x :: rest) pending result
          = processBatch send_slot e st rest pending result by
            simp [processBatch, hst]] at h
      exact ih pending result flag pending' result' h s hs hsr
    · rcases hsat : t.satisfiesConfirmed with _ | _
      · rw [show processBatch send_slot e st (x :: rest) pending result
            = .ok (true, pending, result) by simp [processBatch, hst, hsat]] at h
        simp only [Except.ok.injEq, Prod.mk.injEq] at h
        rw [← h.2.1]
        exact hs
      · by_cases hlk : (mapLookup x result).isSome
        · rw [show processBatch send_slot e st (x :: rest) pending result
              = .error .overwroteResult by simp [processBatch, hst, hsat, hlk]] at h
          exact absurd h (by simp)
        · rw [show processBatch send_slot e st (x :: rest) pending result
              = processBatch send_slot e st rest (pending.erase x)
                  ((x, .success send_slot t.slot t.confirmation_status e)
                    :: result) by simp [processBatch, hst, hsat, hlk]] at h
          exact ih _ _ flag pending' result' h s
            ((List.mem_erase_of_ne hsx).mpr hs) hsr

/-- Counterexample to C2 as stated: in a round whose batch is `[1, 2]`, the
endpoint reports signature 1 as `processed` (present but below the confirmed
threshold) and signature 2 as `confirmed`; the claim says signature 2's status
is still examined in that round and moved to the resolved map, but the round
ends (`continue 'pooling_loop`) with the result map still empty and both
signatures still pending - signature 2 was skipped. -/
theorem C2_counterexample :
    stMixedExample 2 = some ⟨9, .confirmed⟩ ∧
    TransactionStatus.satisfiesConfirmed ⟨9, .confirmed⟩ = true ∧
    processBatch 7 50 stMixedExample [1, 2] [1, 2] []
      = .ok (true, [1, 2], []) :=
  ⟨by decide, by decide, by rfl⟩

/-- C2 (amended): in each batch polling round, the pending signatures are
examined in batch order only up to the first signature whose returned status
is present but below the confirmed threshold: the signatures before it are
processed normally, that signature is left pending, and the rest of the
round's batch is skipped, the round being restarted immediately
(`continue 'pooling_loop`).  Formally, processing `b1 ++ s :: b2`, where no
status in `b1` is below threshold and the status of `s` is, equals processing
`b1` alone with the restart flag forced to true; and `s` survives into the
round's final pending set. -/
theorem C2_round_restart (send_slot : Slot) (e : Duration)
    (st : Signature → Option TransactionStatus) (b1 b2 : List Signature)
    (s : Signature) (pending : List Signature)
    (result : List (Signature × ConfirmationResponseFromRpc))
    (h1 : ∀ x ∈ b1, belowThreshold (st x) = false)
    (h2 : belowThreshold (st s) = true) :
    processBatch send_slot e st (b1 ++ s :: b2) pending result
      = (processBatch send_slot e st b1 pending result).map
          (fun out => (true, out.2)) ∧
    (∀ flag pending' result',
      processBatch send_slot e st (b1 ++ s :: b2) pending result
        = .ok (flag, pending', result') →
      s ∈ pending → s ∈ pending') := by
  have hmain : ∀ (b1 : List Signature) (pending : List Signature)
      (result : List (Signature × ConfirmationResponseFromRpc)),
      (∀ x ∈ b1, belowThreshold (st x) = false) →
      processBatch send_slot e st (b1 ++ s :: b2) pending result
        = (processBatch send_slot e st b1 pending result).map
            (fun out => (true, out.2)) := by
    intro b1
    induction b1 with
    | nil =>
      intro pending result _
      rcases hst : st s with _ | t
      · rw [hst] at h2
        simp [belowThreshold] at h2
      · rw [hst] at h2
        have hsat : t.satisfiesConfirmed = false := by
          simpa [belowThreshold] using h2
        simp [processBatch, hst, hsat, Except.map]
    | cons x rest ih =>
      intro pending result hall
      have hx : belowThreshold (st x) = false := hall x (List.mem_cons_self _ _)
      have hrest : ∀ y ∈ rest, belowThreshold (st y) = false :=
        fun y hy => hall y (List.mem_cons_of_mem _ hy)
      rcases hst : st x with _ | t
      · simp only [List.cons_append, processBatch, hst]
        exact ih pending result hrest
      · have hsat : t.satisfiesConfirmed = true := by
          rw [hst] at hx
          simpa [belowThreshold] using hx
        by_cases hlk : (mapLookup x result).isSome
        · simp [List.cons_append, processBatch, hst, hsat, hlk, Except.map]
        · simp only [List.cons_append, processBatch, hst, hsat,
            Bool.true_eq_false, if_false, hlk, if_neg]
          exact ih _ _ hrest
  have hs_not_b1 : s ∉ b1 := by
    intro hmem
    rw [h1 s hmem] at h2
    exact absurd h2 (by simp)
  refine ⟨hmain b1 pending result h1, ?_⟩
  intro flag pending' result' h hp
  rw [hmain b1 pending result h1] at h
  cases hb : processBatch send_slot e st b1 pending result with
  | error r =>
    rw [hb] at h
    exact absurd h (by simp [Except.map])
  | ok out =>
    obtain ⟨f0, p0, r0⟩ := out
    rw [hb] at h
    simp only [Except.map, Except.ok.injEq, Prod.mk.injEq] at h
    have hp0 : s ∈ p0 := processBatch_pending_mem send_slot e st b1 pending
      result f0 p0 r0 hb s hp hs_not_b1
    rw [← h.2.1]
    exact hp0

/-- Witness for C2 (amended): batch `[3] ++ 1 :: [2]` where signature 3 is
confirmed and signature 1 is below threshold - processing equals the
`[3]`-only round with the restart flag, and signature 1 stays pending. -/
theorem C2_round_restart_witness :
    ((∀ x ∈ [(3 : Signature)], belowThreshold (stMixedExample x) = false) ∧
      belowThreshold (stMixedExample 1) = true) ∧
    (processBatch 7 50 stMixedExample ([3] ++ 1 :: [2]) [3, 1, 2] []
        = (processBatch 7 50 stMixedExample [3] [3, 1, 2] []).map
            (fun out => (true, out.2)) ∧
      ∀ flag pending' result',
        processBatch 7 50 stMixedExample ([3] ++ 1 :: [2]) [3, 1, 2] []
          = .ok (flag, pending', result') →
        1 ∈ [3, 1, 2] → 1 ∈ pending') :=
  ⟨⟨by decide, by decide⟩, C2_round_restart 7 50 stMixedExample [3] [2] 1
    [3, 1, 2] [] (by decide) (by decide)⟩

/-- Filtering an association list by a key absent from it yields nothing. -/
lemma filter_key_eq_nil_of_not_mem_keys
    (r : List (Signature × ConfirmationResponseFromRpc)) (s : Signature)
    (h : s ∉ r.map Prod.fst) :
    r.filter (fun a => a.1 == s) = [] := by
  induction r with
  | nil => rfl
  | cons a rest ih =>
    obtain ⟨a1, a2⟩ := a
    simp only [List.map_cons, List.mem_cons] at h
    push_neg at h
    have hne : (a1 == s) = false := by
      simp only [beq_eq_false_iff_ne, ne_eq]
      exact fun he => h.1 he.symm
    simp only [List.filter_cons, hne]
    exact ih h.2

/-- Filtering the timeout-stamped entries of a duplicate-free pending set by a
member signature yields exactly that signature's single timeout record. -/
lemma filter_key_map_timeout (total : Duration) :
    ∀ (p : List Signature) (s : Signature), p.Nodup → s ∈ p →
      ((p.map (fun t => (t, ConfirmationResponseFromRpc.timeout total))).filter
        (fun a => a.1 == s)) = [(s, .timeout total)] := by
  intro p
  induction p with
  | nil =>
    intro s _ hs
    exact absurd hs (by simp)
  | cons x rest ih =>
    intro s hnd hs
    rcases List.mem_cons.mp hs with he | hm
    · subst he
      have hsr : s ∉ rest := (List.nodup_cons.mp hnd).1
      have hnil : ((rest.map
          (fun t => (t, ConfirmationResponseFromRpc.timeout total))).filter
            (fun a => a.1 == s)) = [] := by
        apply filter_key_eq_nil_of_not_mem_keys
        simpa using hsr
      simp [List.filter_cons, hnil]
    · have hne : (x == s) = false := by
        simp only [beq_eq_false_iff_ne, ne_eq]
        rintro rfl
        exact (List.nodup_cons.mp hnd).1 hm
      simp only [List.map_cons, List.filter_cons, hne]
      exact ih s (List.nodup_cons.mp hnd).2 hm

/-- Counterexample to C3 as stated: a single pending signature whose status is
forever `processed` (present, below the confirmed threshold).  Every round
hits `continue 'pooling_loop` before the round-counter increment and the
100-round cap check, so after 150 loop entries the loop is still running and
the iteration counter still reads 1: the loop does not terminate after at
most 100 polling rounds. -/
theorem C3_counterexample :
    pollLoop 1 7 stForeverProcessed (fun q => q) 150 0 1 [1] []
      = .outOfFuel [1] [] 1 := by
  decide

/-- C3 (amended): the round counter advances only on rounds that complete
without encountering a below-threshold status (`continue 'pooling_loop` skips
both the increment and the cap check), so the loop is not guaranteed to stop
within 100 polling rounds; the counter itself never exceeds 100, and whenever
the loop does break, the post-loop sweep gives every signature still pending
exactly one `Timeout` record stamped with the total elapsed polling time and
leaves the pending set empty. -/
theorem C3_round_cap_and_timeout_stamp (sends : List (Except Unit Signature))
    (send_slot : Slot) (st : Nat → Signature → Option TransactionStatus)
    (el : Nat → Duration) (hnd : (okSigs sends).Nodup) :
    ∀ fuel p r it qend,
      pollLoop (okSigs sends).length send_slot st el fuel 0 1
        (pendingInit sends) [] = .finished p r it qend →
      it ≤ 100 ∧
      (stampTimeouts p r (el qend)).1 = [] ∧
      ∀ s ∈ p,
        ((stampTimeouts p r (el qend)).2.filter (fun a => a.1 == s))
          = [(s, .timeout (el qend))] := by
  intro fuel p r it qend h
  have hp : ((pendingInit sends)
      ++ (([] : List (Signature × ConfirmationResponseFromRpc)).map Prod.fst)).Perm
      (okSigs sends) := by
    rw [pendingInit_eq_of_nodup sends hnd]
    simp
  obtain ⟨hperm, hit, _⟩ := (pollLoop_sound send_slot st el (okSigs sends) hnd
    fuel 0 1 (pendingInit sends) [] hp (by simp) (by norm_num)).2 p r it qend h
  have hcat : (p ++ r.map Prod.fst).Nodup := hperm.symm.nodup hnd
  refine ⟨hit, rfl, ?_⟩
  intro s hs
  have hpnd : p.Nodup := hcat.of_append_left
  have hsk : s ∉ r.map Prod.fst :=
    fun hk => (List.disjoint_of_nodup_append hcat) hs hk
  have h1 : (r.filter (fun a => a.1 == s)) = [] :=
    filter_key_eq_nil_of_not_mem_keys r s hsk
  have h2 := filter_key_map_timeout (el qend) p s hpnd hs
  simp only [stampTimeouts, List.filter_append, h1, h2, List.nil_append]

/-- Witness for C3 (amended): one accepted signature whose status is never
reported; the loop completes 100 rounds and breaks at the cap with the
signature still pending, which the sweep stamps with the single Timeout
record carrying the total elapsed time. -/
theorem C3_round_cap_and_timeout_stamp_witness :
    (okSigs [Except.ok 1]).Nodup ∧
    (100 ≤ 100 ∧
     (stampTimeouts [1] [] 100).1 = [] ∧
     ∀ s ∈ [1],
       ((stampTimeouts [1] [] 100).2.filter (fun a => a.1 == s))
         = [(s, ConfirmationResponseFromRpc.timeout 100)]) :=
  ⟨by decide, C3_round_cap_and_timeout_stamp [Except.ok 1] 4 (fun _ _ => none)
    (fun q => q) (by decide) 100 [1] [] 100 100 (by decide)⟩

/-- Soundness of the result-vector construction: a successful build has one
entry per input pair, in order, whose key is the accepted signature (`Ok`
case) or the transaction's own signature (`Err` case), and whose record
either is the `SendError` of a failed send or comes from the result map. -/
lemma buildResultGo_sound (m : List (Signature × ConfirmationResponseFromRpc)) :
    ∀ (pairs : List (Signature × Except Unit Signature))
      (v : List (Signature × ConfirmationResponseFromRpc)),
      buildResultGo m pairs = .ok v →
      v.length = pairs.length ∧
      v.map Prod.fst = pairs.map entryKey ∧
      ∀ a ∈ v,
        (∃ pr ∈ pairs, isErr pr.2 = true ∧
          a.2 = ConfirmationResponseFromRpc.sendError) ∨
        mapLookup a.1 m = some a.2 := by
  intro pairs
  induction pairs with
  | nil =>
    intro v h
    simp only [buildResultGo, Except.ok.injEq] at h
    subst h
    exact ⟨rfl, rfl, by simp⟩
  | cons pr rest ih =>
    intro v h
    obtain ⟨tx, s⟩ := pr
    cases s with
    | ok g =>
      cases hlk : mapLookup g m with
      | none =>
        rw [show buildResultGo m ((tx, Except.ok g) :: rest)
            = .error .missingResult by simp [buildResultGo, hlk]] at h
        exact absurd h (by simp)
      | some c =>
        rw [show buildResultGo m ((tx, Except.ok g) :: rest)
            = (buildResultGo m rest).map (fun t => (g, c) :: t) by
              simp [buildResultGo, hlk]] at h
        cases hrec : buildResultGo m rest with
        | error r2 =>
          rw [hrec] at h
          exact absurd h (by simp [Except.map])
        | ok t =>
          rw [hrec] at h
          simp only [Except.map, Except.ok.injEq] at h
          subst h
          obtain ⟨h1, h2, h3⟩ := ih t hrec
          refine ⟨by simp [h1], by simp [h2, entryKey], ?_⟩
          intro a ha
          rcases List.mem_cons.mp ha with he | hm
          · subst he
            exact Or.inr hlk
          · rcases h3 a hm with ⟨pr2, hpr2, hie, hae⟩ | hl
            · exact Or.inl ⟨pr2, List.mem_cons_of_mem _ hpr2, hie, hae⟩
            · exact Or.inr hl
    | error u =>
      rw [show buildResultGo m ((tx, Except.error u) :: rest)
          = (buildResultGo m rest).map
              (fun t => (tx, ConfirmationResponseFromRpc.sendError) :: t) by
            simp [buildResultGo]] at h
      cases hrec : buildResultGo m rest with
      | error r2 =>
        rw [hrec] at h
        exact absurd h (by simp [Except.map])
      | ok t =>
        rw [hrec] at h
        simp only [Except.map, Except.ok.injEq] at h
        subst h
        obtain ⟨h1, h2, h3⟩ := ih t hrec
        refine ⟨by simp [h1], by simp [h2, entryKey], ?_⟩
        intro a ha
        rcases List.mem_cons.mp ha with he | hm
        · subst he
          exact Or.inl ⟨(tx, Except.error u), List.mem_cons_self _ _, rfl, rfl⟩
        · rcases h3 a hm with ⟨pr2, hpr2, hie, hae⟩ | hl
          · exact Or.inl ⟨pr2, List.mem_cons_of_mem _ hpr2, hie, hae⟩
          · exact Or.inr hl

/-- When every send succeeded, the keys of the result vector are the accepted
signatures in submission order. -/
lemma zip_map_entryKey_of_all_ok :
    ∀ (txs : List Signature) (sends : List (Except Unit Signature)),
      txs.length = sends.length → (∀ s ∈ sends, isErr s = false) →
      (txs.zip sends).map entryKey = okSigs sends := by
  intro txs
  induction txs with
  | nil =>
    intro sends hlen _
    have h0 : sends.length = 0 := by simpa using hlen.symm
    have he : sends = [] := List.length_eq_zero.mp h0
    subst he
    rfl
  | cons tx txs ih =>
    intro sends hlen hall
    cases sends with
    | nil => simp at hlen
    | cons s sends =>
      cases s with
      | error u =>
        have hu := hall (Except.error u) (List.mem_cons_self _ _)
        simp [isErr] at hu
      | ok g =>
        simp only [List.zip_cons_cons, List.map_cons, entryKey, okSigs,
          List.cons.injEq, true_and]
        exact ih sends (by simpa using hlen)
          (fun s hs => hall s (List.mem_cons_of_mem _ hs))

lemma all_ok_of_numSentFailed_eq_zero (sends : List (Except Unit Signature))
    (h : numSentFailed sends = 0) : ∀ s ∈ sends, isErr s = false := by
  intro s hs
  have h2 := List.countP_eq_zero.mp h s hs
  simpa using h2

/-- The timeout sweep introduces no `SendError` records. -/
lemma stampTimeouts_no_sendError (p : List Signature)
    (r : List (Signature × ConfirmationResponseFromRpc)) (total : Duration)
    (hr : ∀ a ∈ r, a.2 ≠ ConfirmationResponseFromRpc.sendError) :
    ∀ a ∈ (stampTimeouts p r total).2,
      a.2 ≠ ConfirmationResponseFromRpc.sendError := by
  intro a ha
  simp only [stampTimeouts, List.mem_append] at ha
  rcases ha with h | h
  · exact hr a h
  · obtain ⟨s, _, rfl⟩ := List.mem_map.mp h
    simp

/-- Dissection of a successful bulk call: no send failed, the polling loop
broke normally, and the result vector was built from the stamped map. -/
lemma send_and_confirm_ok_elim {txs : List Signature}
    {sends : List (Except Unit Signature)} {send_slot : Slot}
    {st : Nat → Signature → Option TransactionStatus} {el : Nat → Duration}
    {fuel : Nat} {v : List (Signature × ConfirmationResponseFromRpc)}
    (h : send_and_confirm_bulk_transactions txs sends send_slot st el fuel
      = .ok v) :
    numSentFailed sends = 0 ∧
    ∃ p r it qend,
      pollLoop (okSigs sends).length send_slot st el fuel 0 1
        (pendingInit sends) [] = .finished p r it qend ∧
      buildResultGo ((stampTimeouts p r (el qend)).2) (txs.zip sends)
        = .ok v := by
  unfold send_and_confirm_bulk_transactions at h
  by_cases hf : 0 < numSentFailed sends
  · rw [if_pos hf] at h
    exact absurd h (by simp)
  · rw [if_neg hf] at h
    refine ⟨Nat.eq_zero_of_not_pos hf, ?_⟩
    rcases hpl : pollLoop (okSigs sends).length send_slot st el fuel 0 1
        (pendingInit sends) [] with r0 | ⟨p, r, it, qend⟩ | ⟨p, r, it⟩
    · rw [hpl] at h
      exact absurd h (by simp)
    · rw [hpl] at h
      dsimp only at h
      rcases hbr : buildResultGo ((stampTimeouts p r (el qend)).2)
          (txs.zip sends) with r2 | v2
      · rw [hbr] at h
        exact absurd h (by simp)
      · rw [hbr] at h
        simp only [Except.ok.injEq] at h
        subst h
        exact ⟨p, r, it, qend, rfl, hbr⟩
    · rw [hpl] at h
      exact absurd h (by simp)

/-- C5: for every batch of N input transactions for which the bulk call
returns a success result, the returned list has exactly N entries, its keys
are the accepted signatures in the original submission order, and each entry
carries one of the three terminal classifications (SendError, Success,
Timeout) - no entry is ever left pending, since every accepted signature was
found in the resolved-and-stamped map when the vector was built. -/
theorem C5_totality (txs : List Signature) (sends : List (Except Unit Signature))
    (send_slot : Slot) (st : Nat → Signature → Option TransactionStatus)
    (el : Nat → Duration) (fuel : Nat)
    (v : List (Signature × ConfirmationResponseFromRpc))
    (hlen : txs.length = sends.length)
    (h : send_and_confirm_bulk_transactions txs sends send_slot st el fuel
      = .ok v) :
    v.length = txs.length ∧
    v.map Prod.fst = okSigs sends ∧
    ∀ a ∈ v, a.2 = ConfirmationResponseFromRpc.sendError ∨
      (∃ ss cs cl e2, a.2 = ConfirmationResponseFromRpc.success ss cs cl e2) ∨
      ∃ e2, a.2 = ConfirmationResponseFromRpc.timeout e2 := by
  obtain ⟨hz, p, r, it, qend, hpl, hbr⟩ := send_and_confirm_ok_elim h
  have hallok := all_ok_of_numSentFailed_eq_zero sends hz
  obtain ⟨h1, h2, _⟩ := buildResultGo_sound _ _ _ hbr
  refine ⟨?_, ?_, ?_⟩
  · rw [h1, List.length_zip, hlen, Nat.min_self]
  · rw [h2, zip_map_entryKey_of_all_ok txs sends hlen hallok]
  · intro a _
    cases a.2 with
    | sendError => exact Or.inl rfl
    | success ss cs cl e2 => exact Or.inr (Or.inl ⟨ss, cs, cl, e2, rfl⟩)
    | timeout e2 => exact Or.inr (Or.inr ⟨e2, rfl⟩)

/-- Witness for C5 at a concrete one-transaction batch confirmed in the first
round. -/
theorem C5_totality_witness :
    send_and_confirm_bulk_transactions [1] [Except.ok 1] 4
      (fun _ _ => some ⟨6, .confirmed⟩) (fun _ => 7) 2
      = .ok [(1, .success 4 6 .confirmed 7)] ∧
    ([(1, ConfirmationResponseFromRpc.success 4 6 .confirmed 7)].length
        = ([1] : List Signature).length ∧
      [(1, ConfirmationResponseFromRpc.success 4 6 .confirmed 7)].map Prod.fst
        = okSigs [Except.ok 1] ∧
      ∀ a ∈ [((1 : Signature),
          ConfirmationResponseFromRpc.success 4 6 .confirmed 7)],
        a.2 = ConfirmationResponseFromRpc.sendError ∨
        (∃ ss cs cl e2,
          a.2 = ConfirmationResponseFromRpc.success ss cs cl e2) ∨
        ∃ e2, a.2 = ConfirmationResponseFromRpc.timeout e2) :=
  ⟨by rfl, C5_totality [1] [Except.ok 1] 4 (fun _ _ => some ⟨6, .confirmed⟩)
    (fun _ => 7) 2 [(1, .success 4 6 .confirmed 7)] (by rfl) (by rfl)⟩

/-- C10: whenever the bulk call returns a success result, no entry of the
returned list is a `SendError`: any send failure would have made the whole
call fail before the per-transaction list was built, so the `SendError`
branch of the result construction is unreachable and every entry of a
successful result is a `Success` or a `Timeout` record. -/
theorem C10_success_has_no_send_error (txs : List Signature)
    (sends : List (Except Unit Signature)) (send_slot : Slot)
    (st : Nat → Signature → Option TransactionStatus) (el : Nat → Duration)
    (fuel : Nat) (v : List (Signature × ConfirmationResponseFromRpc))
    (hnd : (okSigs sends).Nodup)
    (h : send_and_confirm_bulk_transactions txs sends send_slot st el fuel
      = .ok v) :
    ∀ a ∈ v, a.2 ≠ ConfirmationResponseFromRpc.sendError := by
  obtain ⟨hz, p, r, it, qend, hpl, hbr⟩ := send_and_confirm_ok_elim h
  have hallok := all_ok_of_numSentFailed_eq_zero sends hz
  have hperm0 : ((pendingInit sends)
      ++ (([] : List (Signature × ConfirmationResponseFromRpc)).map Prod.fst)).Perm
      (okSigs sends) := by
    rw [pendingInit_eq_of_nodup sends hnd]
    simp
  obtain ⟨_, _, hrv⟩ := (pollLoop_sound send_slot st el (okSigs sends) hnd fuel
    0 1 (pendingInit sends) [] hperm0 (by simp) (by norm_num)).2 p r it qend hpl
  have hstamp := stampTimeouts_no_sendError p r (el qend) hrv
  obtain ⟨_, _, hvals⟩ := buildResultGo_sound _ _ _ hbr
  intro a ha
  rcases hvals a ha with ⟨⟨t1, t2⟩, hpr2, hie, _⟩ | hl
  · have hf2 : isErr t2 = false := hallok t2 (List.of_mem_zip hpr2).2
    rw [hf2] at hie
    exact absurd hie (by simp)
  · have hmem := mem_of_mapLookup_eq_some hl
    exact hstamp a hmem

/-- Witness for C10 at a concrete one-transaction batch finalized in the
first round. -/
theorem C10_success_has_no_send_error_witness :
    send_and_confirm_bulk_transactions [2] [Except.ok 2] 4
      (fun _ _ => some ⟨5, .finalized⟩) (fun _ => 9) 3
      = .ok [(2, .success 4 5 .finalized 9)] ∧
    ∀ a ∈ [((2 : Signature), ConfirmationResponseFromRpc.success 4 5 .finalized 9)],
      a.2 ≠ ConfirmationResponseFromRpc.sendError :=
  ⟨by rfl, C10_success_has_no_send_error [2] [Except.ok 2] 4
    (fun _ _ => some ⟨5, .finalized⟩) (fun _ => 9) 3
    [(2, .success 4 5 .finalized 9)] (by decide) (by rfl)⟩

end LiteRpcBench
